import Mathlib

/-!
Shallow embedding of `solver.py`, a script that drives six ODrive motor
controllers (one per face of a Rubik's cube) through fixed scramble and
unscramble move sequences.

Modelling conventions:
* Python floats are embedded as `Rat`; every numeric literal of the source
  (0.25, 0.08, 80.0, 150.0, 1) is exactly representable.
* A connected ODrive handle is a record of the fields the script reads or
  writes.  The `odrives` dict is an insertion-ordered association list
  `List (Char × ODrive)` (each face key is a one-character string in Python).
* Externals are oracles: `find` models `odrive.find_sync` (success or
  failure per serial number), `fw` models the firmware's response to a
  `requested_state := CLOSED_LOOP_CONTROL` write (the `current_state`
  observed after the settling sleep).
* Side effects (prints, sleeps, position commands, feedback reads) are
  recorded in an event trace, one constructor per source site.
* The module-level tables (`SERIALS`, `SCRAMBLE_SEQUENCE`,
  `UNSCRAMBLE_SEQUENCE`) are Python globals that statements could rebind or
  mutate; `main` threads a `Tables` record through the run so that their
  immutability is a provable statement rather than an artefact of the
  embedding.
-/

namespace Solver

/-- `odrive.enums.ControlMode` (the values of the external enum). -/
inductive ControlMode where
  | VOLTAGE_CONTROL
  | TORQUE_CONTROL
  | VELOCITY_CONTROL
  | POSITION_CONTROL
  deriving DecidableEq, Repr

/-- `odrive.enums.InputMode` (the values the script can meet). -/
inductive InputMode where
  | INACTIVE
  | PASSTHROUGH
  | VEL_RAMP
  | POS_FILTER
  | TRAP_TRAJ
  | TORQUE_RAMP
  deriving DecidableEq, Repr

/-- `odrive.enums.AxisState` (the values the script can meet). -/
inductive AxisState where
  | UNDEFINED
  | IDLE
  | MOTOR_CALIBRATION
  | ENCODER_OFFSET_CALIBRATION
  | CLOSED_LOOP_CONTROL
  deriving DecidableEq, Repr

/-- The fields of a connected ODrive handle that `solver.py` reads or
writes: `axis0.controller.config.control_mode`,
`axis0.controller.config.input_mode`, the three `axis0.trap_traj.config`
limits, `axis0.controller.input_pos` (the commanded input position),
`axis0.pos_estimate` (the measured position), `axis0.requested_state` and
`axis0.current_state`. -/
structure ODrive where
  control_mode : ControlMode
  input_mode : InputMode
  vel_limit : Rat
  accel_limit : Rat
  decel_limit : Rat
  input_pos : Rat
  pos_estimate : Rat
  requested_state : AxisState
  current_state : AxisState
  deriving DecidableEq, Repr

/-- One event per observable side effect of the script, one constructor per
source site (prints carry no formatted text unless a claim depends on it). -/
inductive Event where
  /-- "Connecting to ODrives..." -/
  | connecting
  /-- "  Connected: {face} ({serial})" -/
  | connected (face : Char) (serial : String)
  /-- "  FAILED: {face} ({serial}) - {e}" -/
  | connectFailed (face : Char) (serial : String)
  /-- "All ODrives connected!" -/
  | allConnected
  /-- "Failed to connect to all ODrives" (printed by `main`). -/
  | connectFailAbort
  /-- "Setting up motors (one at a time)..." -/
  | settingUp
  /-- a read of `axis0.pos_estimate` (position feedback). -/
  | readFeedback (face : Char)
  /-- the setup write `controller.input_pos = pos_estimate`. -/
  | setInputPos (face : Char) (pos : Rat)
  /-- the write `requested_state = AxisState.CLOSED_LOOP_CONTROL`. -/
  | requestClosedLoop (face : Char)
  /-- "  WARNING: {face} did not enter closed loop (state={state})" -/
  | warnNotClosedLoop (face : Char) (state : AxisState)
  /-- "  {face}: ready (pos = ...)" -/
  | readyMsg (face : Char)
  /-- "All motors ready!" -/
  | allReady
  /-- "  {move}", printed before a move is commanded. -/
  | moveMsg (move : String)
  /-- "done", printed after a move's settling sleep. -/
  | doneMsg
  /-- "  Face {face} not connected!" -/
  | skipFace (face : Char)
  /-- the position command of `rotate`: the write
  `controller.input_pos = target` on the given face's handle. -/
  | cmd (face : Char) (target : Rat)
  /-- `time.sleep(seconds)`. -/
  | sleep (seconds : Rat)
  /-- the `input(...)` prompt of the command loop. -/
  | prompt
  /-- "Scrambling..." -/
  | scramblingMsg
  /-- "Unscrambling..." -/
  | unscramblingMsg
  /-- "Scramble complete!/Unscramble complete! (...)" -/
  | completeMsg
  /-- "Exiting..." -/
  | exitingMsg
  /-- "Invalid choice!" -/
  | invalidMsg
  deriving DecidableEq, Repr

/-- The module-level tables of `solver.py`, threaded through `main` as
mutable Python globals. -/
structure Tables where
  serials : List (Char × String)
  scramble : List String
  unscramble : List String
  deriving DecidableEq, Repr

/-- `SERIALS`: face name -> ODrive serial number, in the source's insertion
order (Python dicts iterate in insertion order). -/
def SERIALS : List (Char × String) :=
  [('D', "395634623331"),
   ('U', "395134633331"),
   ('L', "396034693331"),
   ('B', "3971346B3331"),
   ('F', "395134623331"),
   ('R', "395934593331")]

/-- `SCRAMBLE_SEQUENCE` of `solver.py`. -/
def SCRAMBLE_SEQUENCE : List String :=
  ["R", "U", "F'", "L", "D'", "B", "R'", "F", "L'", "D",
   "U'", "B'", "R", "L", "F", "D'", "U", "B", "L'", "R'"]

/-- `UNSCRAMBLE_SEQUENCE` of `solver.py`. -/
def UNSCRAMBLE_SEQUENCE : List String :=
  ["R", "L", "B'", "U'", "D", "F'", "L'", "R'", "B", "U",
   "D'", "L", "F'", "R", "B'", "D", "L'", "F", "U'", "R'"]

/-- Python `move.endswith("'")`: for the one-character suffix `"'"` this is
whether the string's last character is an apostrophe (written over
`String.data` so that it evaluates in the kernel). -/
def endsWithApos (m : String) : Bool :=
  m.data.getLast? = some '\''

/-- Python `move[0]`, defined (as in the source) on nonempty tokens; on the
empty string Python raises, here a default character is returned and every
theorem about it assumes the token nonempty. -/
def firstChar (m : String) : Char :=
  m.data.headD 'A'

/-- Python `choice.upper()` (ASCII, which is all the command loop compares). -/
def pyUpper (s : String) : String :=
  ⟨s.data.map Char.toUpper⟩

/-- The connected-handles dict `odrives`, insertion ordered. -/
abbrev Odrives := List (Char × ODrive)

/-- Python `odrives[face]` / `face in odrives`: first entry with the key. -/
def lookupFace : Odrives → Char → Option ODrive
  | [], _ => none
  | (k, v) :: rest, f => if f = k then some v else lookupFace rest f

/-- Mutation of the handle bound to key `f` (the dict keeps its shape; in
the script only present keys are ever updated). -/
def updateFace : Odrives → Char → ODrive → Odrives
  | [], _, _ => []
  | (k, v) :: rest, f, o =>
      (k, if f = k then o else v) :: updateFace rest f o

/-- `connect_odrives`' loop body over the remaining `SERIALS` items:
`odrive.find_sync` is the oracle `find`; the first failure returns `None`
(the dict built so far is dropped). -/
def connectLoop (find : String → Option ODrive) :
    List (Char × String) → Odrives → Option Odrives × List Event
  | [], acc => (some acc, [])
  | (face, serial) :: rest, acc =>
    match find serial with
    | some odrv =>
      let r := connectLoop find rest (acc ++ [(face, odrv)])
      (r.1, Event.connected face serial :: r.2)
    | none => (none, [Event.connectFailed face serial])

/-- `connect_odrives()`: connect to all six ODrives of the serial table, or
return `None` on the first failure. -/
def connect_odrives (serials : List (Char × String))
    (find : String → Option ODrive) : Option Odrives × List Event :=
  let r := connectLoop find serials []
  (r.1,
   Event.connecting ::
     r.2 ++ (match r.1 with | some _ => [Event.allConnected] | none => []))

/-- The configuration writes of `setup_motors`' loop body, up to and
including the critical `input_pos = pos_estimate` write that precedes the
closed-loop request. -/
def configureMotor (o : ODrive) : ODrive :=
  { o with
    control_mode := ControlMode.POSITION_CONTROL
    input_mode := InputMode.TRAP_TRAJ
    vel_limit := 80.0
    accel_limit := 150.0
    decel_limit := 150.0
    input_pos := o.pos_estimate }

/-- The write `requested_state = AxisState.CLOSED_LOOP_CONTROL` and the
state transition the firmware oracle `fw` answers with (read back from
`current_state` after the one-second sleep). -/
def requestClosedLoopStep (fw : Char → AxisState) (face : Char)
    (o : ODrive) : ODrive :=
  { o with
    requested_state := AxisState.CLOSED_LOOP_CONTROL
    current_state := fw face }

/-- One iteration of `setup_motors` on one face's handle. -/
def setupMotor (fw : Char → AxisState) (face : Char) (o : ODrive) : ODrive :=
  requestClosedLoopStep fw face (configureMotor o)

/-- The event trace of one `setup_motors` iteration: the feedback read
feeding the `input_pos` write, the closed-loop request, the settling sleep,
then either the ready print (with its second feedback read) or the warning. -/
def setupEvents (fw : Char → AxisState) (face : Char) (o : ODrive) :
    List Event :=
  [Event.readFeedback face, Event.setInputPos face o.pos_estimate,
   Event.requestClosedLoop face, Event.sleep 1] ++
  (if fw face = AxisState.CLOSED_LOOP_CONTROL then
     [Event.readFeedback face, Event.readyMsg face]
   else
     [Event.warnNotClosedLoop face (fw face)])

/-- `setup_motors(odrives)`: every connected motor is configured and asked
to enter closed loop, one at a time, in dict order. -/
def setup_motors (fw : Char → AxisState) (ods : Odrives) :
    Odrives × List Event :=
  (ods.map (fun p => (p.1, setupMotor fw p.1 p.2)),
   Event.settingUp ::
     (ods.map (fun p => setupEvents fw p.1 p.2)).flatten ++ [Event.allReady])

/-- `rotate(odrv, quarter_turns)`: read the current commanded position,
command `current + quarter_turns * 0.25`, sleep 0.08 s.  The `face`
argument only tags the trace with which handle was written. -/
def rotate (face : Char) (o : ODrive) (quarter_turns : Int) :
    ODrive × List Event :=
  let current := o.input_pos
  let target := current + quarter_turns * (0.25 : Rat)
  ({ o with input_pos := target },
   [Event.cmd face target, Event.sleep 0.08])

/-- One iteration of `execute_sequence`'s loop: parse the token's direction
from its trailing apostrophe and its face from its first character, skip
(with a message) when the face is not connected, otherwise rotate. -/
def execStep (ods : Odrives) (move : String) : Odrives × List Event :=
  let direction : Int := if endsWithApos move then -1 else 1
  let face := firstChar move
  match lookupFace ods face with
  | none => (ods, [Event.skipFace face])
  | some o =>
    let r := rotate face o direction
    (updateFace ods face r.1, Event.moveMsg move :: r.2 ++ [Event.doneMsg])

/-- `execute_sequence(odrives, sequence)`: the moves in list order, one at
a time. -/
def execute_sequence (ods : Odrives) : List String → Odrives × List Event
  | [] => (ods, [])
  | m :: rest =>
    let s1 := execStep ods m
    let s2 := execute_sequence s1.1 rest
    (s2.1, s1.2 ++ s2.2)

/-- The interactive `while True` loop of `main`, over a finite list of
input lines (the interaction ends with the input).  The tables record is
threaded through every iteration, as the Python globals are. -/
def mainLoop (t : Tables) : Odrives → List String → Odrives × Tables × List Event
  | ods, [] => (ods, t, [])
  | ods, line :: rest =>
    let choice := pyUpper line
    if choice = "S" then
      let r := execute_sequence ods t.scramble
      let k := mainLoop t r.1 rest
      (k.1, k.2.1,
       Event.prompt :: Event.scramblingMsg :: r.2 ++ Event.completeMsg :: k.2.2)
    else if choice = "U" then
      let r := execute_sequence ods t.unscramble
      let k := mainLoop t r.1 rest
      (k.1, k.2.1,
       Event.prompt :: Event.unscramblingMsg :: r.2 ++ Event.completeMsg :: k.2.2)
    else if choice = "Q" then
      (ods, t, [Event.prompt, Event.exitingMsg])
    else
      let k := mainLoop t ods rest
      (k.1, k.2.1, Event.prompt :: Event.invalidMsg :: k.2.2)

/-- The result of a `main` run: the final handles (when the connect phase
succeeded), the final value of the global tables, and the event trace. -/
structure MainResult where
  odrives : Option Odrives
  tables : Tables
  events : List Event
  deriving Repr

/-- `main()`: connect, bail out when `odrives` is falsy (None or empty),
otherwise set up the motors and enter the command loop. -/
def main (t : Tables) (find : String → Option ODrive)
    (fw : Char → AxisState) (stdin : List String) : MainResult :=
  let c := connect_odrives t.serials find
  match c.1 with
  | none => ⟨none, t, c.2 ++ [Event.connectFailAbort]⟩
  | some ods =>
    if ods.isEmpty then ⟨some ods, t, c.2 ++ [Event.connectFailAbort]⟩
    else
      let s := setup_motors fw ods
      let l := mainLoop t s.1 stdin
      ⟨some l.1, l.2.1, c.2 ++ s.2 ++ l.2.2⟩

/-- The tables as the module defines them. -/
def defaultTables : Tables :=
  { serials := SERIALS
    scramble := SCRAMBLE_SEQUENCE
    unscramble := UNSCRAMBLE_SEQUENCE }

/-- The signed quarter-turn count of one token: +1 clockwise (no trailing
apostrophe), -1 counter-clockwise. -/
def moveDelta (m : String) : Int :=
  if endsWithApos m then -1 else 1

/-- Net signed quarter turns a sequence applies to face `f`, counting every
token of the sequence. -/
def netQuarterTurns : List String → Char → Int
  | [], _ => 0
  | m :: rest, f =>
    (if firstChar m = f then moveDelta m else 0) + netQuarterTurns rest f

/-- Net signed quarter turns `execute_sequence ods` actually executes on
face `f`: tokens whose face is not connected are skipped. -/
def execNet (ods : Odrives) : List String → Char → Int
  | [], _ => 0
  | m :: rest, f =>
    (if firstChar m = f ∧ (lookupFace ods (firstChar m)).isSome then
       moveDelta m
     else 0) + execNet ods rest f

/-- Modelled from the spec (claim C2's wording, deliberately not from the
source): the inverse of a move token, toggling the trailing apostrophe. -/
def specInvertMove (m : String) : String :=
  if endsWithApos m then ⟨m.data.dropLast⟩ else m ++ "'"

/-- Whether an event is a position command issued by `rotate`. -/
def isCmdEv : Event → Bool
  | Event.cmd _ _ => true
  | _ => false

/-- Whether an event is a read of position feedback (`pos_estimate`). -/
def isFeedbackEv : Event → Bool
  | Event.readFeedback _ => true
  | _ => false

/-- The faces of the position commands of a trace, in order. -/
def cmdFaces (evs : List Event) : List Char :=
  evs.filterMap (fun e => match e with | Event.cmd f _ => some f | _ => none)

/-- Every position command of the trace is immediately followed by the
0.08-second settling sleep. -/
def cmdFollowedBySleep : List Event → Bool
  | [] => true
  | Event.cmd _ _ :: rest =>
    (match rest.head? with
     | some (Event.sleep s) => s == (0.08 : Rat)
     | _ => false) && cmdFollowedBySleep rest
  | _ :: rest => cmdFollowedBySleep rest

theorem lookupFace_updateFace_self (ods : Odrives) (f : Char) (o : ODrive) :
    lookupFace (updateFace ods f o) f = (lookupFace ods f).map (fun _ => o) := by
  induction ods with
  | nil => rfl
  | cons p rest ih =>
    obtain ⟨k, v⟩ := p
    by_cases h : f = k <;> simp [lookupFace, updateFace, h, ih]

theorem lookupFace_updateFace_ne (ods : Odrives) (f g : Char) (o : ODrive)
    (h : g ≠ f) :
    lookupFace (updateFace ods f o) g = lookupFace ods g := by
  induction ods with
  | nil => rfl
  | cons p rest ih =>
    obtain ⟨k, v⟩ := p
    by_cases hk : f = k
    · subst hk
      simp [lookupFace, updateFace, h, ih]
    · by_cases hg : g = k <;> simp [lookupFace, updateFace, hk, hg, ih]

theorem lookupFace_updateFace_isSome (ods : Odrives) (f g : Char) (o : ODrive) :
    (lookupFace (updateFace ods f o) g).isSome = (lookupFace ods g).isSome := by
  by_cases h : g = f
  · subst h
    rw [lookupFace_updateFace_self]
    cases lookupFace ods g <;> rfl
  · rw [lookupFace_updateFace_ne _ _ _ _ h]

theorem execStep_lookup_isSome (ods : Odrives) (move : String) (g : Char) :
    (lookupFace (execStep ods move).1 g).isSome = (lookupFace ods g).isSome := by
  simp only [execStep]
  cases hc : lookupFace ods (firstChar move) with
  | none => simp [hc]
  | some o => simp [hc, lookupFace_updateFace_isSome]

theorem execNet_congr (ods1 ods2 : Odrives)
    (h : ∀ g, (lookupFace ods1 g).isSome = (lookupFace ods2 g).isSome)
    (seq : List String) (f : Char) :
    execNet ods1 seq f = execNet ods2 seq f := by
  induction seq with
  | nil => rfl
  | cons m rest ih => simp [execNet, h, ih]

theorem execStep_of_none (ods : Odrives) (move : String)
    (hc : lookupFace ods (firstChar move) = none) :
    execStep ods move = (ods, [Event.skipFace (firstChar move)]) := by
  simp [execStep, hc]

theorem execStep_of_some (ods : Odrives) (move : String) (o : ODrive)
    (hc : lookupFace ods (firstChar move) = some o) :
    execStep ods move =
      (updateFace ods (firstChar move)
        { o with input_pos := o.input_pos + (moveDelta move : Int) * (0.25 : Rat) },
       [Event.moveMsg move,
        Event.cmd (firstChar move)
          (o.input_pos + (moveDelta move : Int) * (0.25 : Rat)),
        Event.sleep 0.08, Event.doneMsg]) := by
  simp [execStep, hc, rotate, moveDelta]

theorem execute_sequence_cons (ods : Odrives) (m : String) (rest : List String) :
    execute_sequence ods (m :: rest) =
      ((execute_sequence (execStep ods m).1 rest).1,
       (execStep ods m).2 ++ (execute_sequence (execStep ods m).1 rest).2) := rfl

theorem execute_sequence_append (ods : Odrives) (s1 s2 : List String) :
    execute_sequence ods (s1 ++ s2) =
      ((execute_sequence (execute_sequence ods s1).1 s2).1,
       (execute_sequence ods s1).2 ++
         (execute_sequence (execute_sequence ods s1).1 s2).2) := by
  induction s1 generalizing ods with
  | nil => simp [execute_sequence]
  | cons m rest ih => simp [execute_sequence, ih]

/-- The evolution of one face under a whole move list: its commanded input
position advances by the executed net quarter-turn count times 0.25 turns,
and nothing else about the handle changes. -/
theorem execute_sequence_lookup (seq : List String) (ods : Odrives) (f : Char) :
    lookupFace (execute_sequence ods seq).1 f =
      (lookupFace ods f).map
        (fun o =>
          { o with
            input_pos := o.input_pos + (execNet ods seq f : Int) * (0.25 : Rat) }) := by
  induction seq generalizing ods with
  | nil =>
    cases ho : lookupFace ods f with
    | none => simp [execute_sequence, ho]
    | some o => simp [execute_sequence, execNet, ho]
  | cons m rest ih =>
    rw [execute_sequence_cons]
    cases hc : lookupFace ods (firstChar m) with
    | none =>
      rw [execStep_of_none ods m hc]
      simp only []
      rw [ih]
      simp [execNet, hc]
    | some oc =>
      rw [execStep_of_some ods m oc hc]
      simp only []
      rw [ih]
      have hnet :
          execNet
            (updateFace ods (firstChar m)
              { oc with
                input_pos := oc.input_pos + (moveDelta m : Int) * (0.25 : Rat) })
            rest f = execNet ods rest f :=
        execNet_congr _ _
          (fun g => lookupFace_updateFace_isSome ods (firstChar m) g _) rest f
      rw [hnet]
      by_cases hf : f = firstChar m
      · subst hf
        rw [lookupFace_updateFace_self, hc]
        cases oc
        simp [execNet, hc]
        ring
      · have hfc : ¬(firstChar m = f) := fun he => hf he.symm
        rw [lookupFace_updateFace_ne _ _ _ _ hf]
        simp [execNet, hfc]

theorem cmdFollowedBySleep_execStep (ods : Odrives) (m : String)
    (t : List Event) :
    cmdFollowedBySleep ((execStep ods m).2 ++ t) = cmdFollowedBySleep t := by
  cases hc : lookupFace ods (firstChar m) with
  | none =>
    rw [execStep_of_none ods m hc]
    simp [cmdFollowedBySleep]
  | some o =>
    rw [execStep_of_some ods m o hc]
    simp [cmdFollowedBySleep]

theorem cmdFaces_append (a b : List Event) :
    cmdFaces (a ++ b) = cmdFaces a ++ cmdFaces b := by
  simp [cmdFaces]

theorem cmdFaces_execStep_none (ods : Odrives) (m : String)
    (hc : lookupFace ods (firstChar m) = none) :
    cmdFaces (execStep ods m).2 = [] := by
  rw [execStep_of_none ods m hc]
  rfl

theorem cmdFaces_execStep_some (ods : Odrives) (m : String) (o : ODrive)
    (hc : lookupFace ods (firstChar m) = some o) :
    cmdFaces (execStep ods m).2 = [firstChar m] := by
  rw [execStep_of_some ods m o hc]
  rfl

theorem lookupFace_map (ods : Odrives) (h : Char → ODrive → ODrive) (f : Char) :
    lookupFace (ods.map (fun p => (p.1, h p.1 p.2))) f =
      (lookupFace ods f).map (h f) := by
  induction ods with
  | nil => rfl
  | cons p rest ih =>
    obtain ⟨k, v⟩ := p
    by_cases hk : f = k <;> simp [lookupFace, hk, ih]

theorem lookupFace_mem (ods : Odrives) (f : Char) (o : ODrive)
    (hc : lookupFace ods f = some o) : (f, o) ∈ ods := by
  induction ods with
  | nil => simp [lookupFace] at hc
  | cons p rest ih =>
    obtain ⟨k, v⟩ := p
    by_cases hk : f = k
    · subst hk
      simp [lookupFace] at hc
      subst hc
      exact List.mem_cons_self _ _
    · simp [lookupFace, hk] at hc
      exact List.mem_cons_of_mem _ (ih hc)

/-- A concrete handle for the closed witness statements. -/
def sampleDrive : ODrive :=
  { control_mode := ControlMode.VELOCITY_CONTROL
    input_mode := InputMode.INACTIVE
    vel_limit := 10
    accel_limit := 20
    decel_limit := 20
    input_pos := 2
    pos_estimate := 3
    requested_state := AxisState.IDLE
    current_state := AxisState.IDLE }

/-- A concrete six-face connection dict for the closed witness statements. -/
def sampleOdrives : Odrives :=
  [('D', sampleDrive), ('U', sampleDrive), ('L', sampleDrive),
   ('B', sampleDrive), ('F', sampleDrive), ('R', sampleDrive)]

/-- C1: executing a move token whose face is connected commands a relative
angular target: the face's commanded input position becomes its current
commanded position plus 0.25 turns when the token does not end in an
apostrophe and minus 0.25 turns when it does, and the position command
issued to the handle carries exactly that target. -/
theorem moveCommandRelativeQuarterTurn (ods : Odrives) (move : String)
    (hne : move ≠ "") (o : ODrive)
    (hc : lookupFace ods (firstChar move) = some o) :
    (lookupFace (execStep ods move).1 (firstChar move)).map ODrive.input_pos =
      some (if endsWithApos move then o.input_pos - 0.25 else o.input_pos + 0.25)
    ∧ Event.cmd (firstChar move)
        (if endsWithApos move then o.input_pos - 0.25 else o.input_pos + 0.25)
        ∈ (execStep ods move).2 := by
  have ht : o.input_pos + (moveDelta move : Int) * (0.25 : Rat) =
      (if endsWithApos move then o.input_pos - 0.25 else o.input_pos + 0.25) := by
    unfold moveDelta
    by_cases h : endsWithApos move <;> simp [h] <;> ring
  rw [execStep_of_some ods move o hc]
  constructor
  · rw [lookupFace_updateFace_self, hc]
    simp [ht]
  · simp [ht]

/-- C1 witness: the counter-clockwise token "R'" on the sample handles. -/
theorem moveCommandRelativeQuarterTurn_witness :
    (lookupFace (execStep sampleOdrives "R'").1 (firstChar "R'")).map
        ODrive.input_pos =
      some (if endsWithApos "R'" then sampleDrive.input_pos - 0.25
            else sampleDrive.input_pos + 0.25)
    ∧ Event.cmd (firstChar "R'")
        (if endsWithApos "R'" then sampleDrive.input_pos - 0.25
         else sampleDrive.input_pos + 0.25)
        ∈ (execStep sampleOdrives "R'").2 :=
  moveCommandRelativeQuarterTurn sampleOdrives "R'" (by decide) sampleDrive rfl

/-- C9: a token whose first character is not a key of the connected-handles
dict is skipped with a message: no handle changes for that move and
execution continues with the remaining moves. -/
theorem unknownFaceSkipped (ods : Odrives) (move : String)
    (rest : List String) (hne : move ≠ "")
    (hc : lookupFace ods (firstChar move) = none) :
    execute_sequence ods (move :: rest) =
      ((execute_sequence ods rest).1,
       Event.skipFace (firstChar move) :: (execute_sequence ods rest).2) := by
  rw [execute_sequence_cons, execStep_of_none ods move hc]
  rfl

/-- C9 witness: the token "X" names no connected face of the sample dict. -/
theorem unknownFaceSkipped_witness :
    execute_sequence sampleOdrives ("X" :: ["R"]) =
      ((execute_sequence sampleOdrives ["R"]).1,
       Event.skipFace (firstChar "X") :: (execute_sequence sampleOdrives ["R"]).2) :=
  unknownFaceSkipped sampleOdrives "X" ["R"] (by decide) rfl

/-- C7: one executed move performs exactly one position-command write, on
the move's own face, leaves every other face's handle unchanged, reads no
position feedback, and issues no second command. -/
theorem singleMoveFrame (ods : Odrives) (move : String) (hne : move ≠ "")
    (o : ODrive) (hc : lookupFace ods (firstChar move) = some o) :
    (execStep ods move).2.filter isCmdEv =
      [Event.cmd (firstChar move)
        (o.input_pos + (moveDelta move : Int) * (0.25 : Rat))]
    ∧ (∀ g, g ≠ firstChar move →
        lookupFace (execStep ods move).1 g = lookupFace ods g)
    ∧ (execStep ods move).2.filter isFeedbackEv = [] := by
  rw [execStep_of_some ods move o hc]
  refine ⟨rfl, ?_, rfl⟩
  intro g hg
  exact lookupFace_updateFace_ne ods (firstChar move) g _ hg

/-- C7 witness: the token "U" on the sample handles. -/
theorem singleMoveFrame_witness :
    (execStep sampleOdrives "U").2.filter isCmdEv =
      [Event.cmd (firstChar "U")
        (sampleDrive.input_pos + (moveDelta "U" : Int) * (0.25 : Rat))]
    ∧ (∀ g, g ≠ firstChar "U" →
        lookupFace (execStep sampleOdrives "U").1 g = lookupFace sampleOdrives g)
    ∧ (execStep sampleOdrives "U").2.filter isFeedbackEv = [] :=
  singleMoveFrame sampleOdrives "U" (by decide) sampleDrive rfl

/-- C3: `execute_sequence` issues position commands strictly one per
connected move, in list order (the trace's command faces are the connected
moves' faces in order), and every command is immediately followed by the
fixed 0.08-second settling sleep, so no two commands are ever adjacent. -/
theorem commandsSequencedWithWaits (ods : Odrives) (seq : List String)
    (hne : ∀ m ∈ seq, m ≠ "") :
    cmdFollowedBySleep (execute_sequence ods seq).2 = true
    ∧ cmdFaces (execute_sequence ods seq).2 =
        (seq.filter (fun m => (lookupFace ods (firstChar m)).isSome)).map
          firstChar := by
  revert hne
  induction seq generalizing ods with
  | nil => exact fun _ => ⟨rfl, rfl⟩
  | cons m rest ih =>
    intro hne
    obtain ⟨ih1, ih2⟩ :=
      ih (execStep ods m).1 (fun x hx => hne x (List.mem_cons_of_mem m hx))
    have hfil :
        rest.filter
            (fun x => (lookupFace (execStep ods m).1 (firstChar x)).isSome) =
          rest.filter (fun x => (lookupFace ods (firstChar x)).isSome) :=
      List.filter_congr (fun x _ => by rw [execStep_lookup_isSome])
    rw [hfil] at ih2
    rw [execute_sequence_cons]
    constructor
    · rw [cmdFollowedBySleep_execStep]
      exact ih1
    · rw [cmdFaces_append]
      cases hc : lookupFace ods (firstChar m) with
      | none =>
        rw [cmdFaces_execStep_none ods m hc, ih2]
        simp [hc]
      | some o =>
        rw [cmdFaces_execStep_some ods m o hc, ih2]
        simp [hc]

/-- C3 witness: the scramble sequence on the sample handles. -/
theorem commandsSequencedWithWaits_witness :
    cmdFollowedBySleep (execute_sequence sampleOdrives SCRAMBLE_SEQUENCE).2 = true
    ∧ cmdFaces (execute_sequence sampleOdrives SCRAMBLE_SEQUENCE).2 =
        (SCRAMBLE_SEQUENCE.filter
            (fun m => (lookupFace sampleOdrives (firstChar m)).isSome)).map
          firstChar :=
  commandsSequencedWithWaits sampleOdrives SCRAMBLE_SEQUENCE (by decide)

/-- C10: from any state (in particular the one setup leaves), after any
executed move list every face's commanded input position equals its
starting value plus an integer number of quarter turns (k * 0.25); each
executed move preserves this invariant. -/
theorem inputPosQuarterTurnInvariant (ods : Odrives) (seq : List String)
    (f : Char) (o : ODrive) (hc : lookupFace ods f = some o) :
    ∃ k : Int,
      (lookupFace (execute_sequence ods seq).1 f).map ODrive.input_pos =
        some (o.input_pos + k * (0.25 : Rat)) := by
  refine ⟨execNet ods seq f, ?_⟩
  rw [execute_sequence_lookup, hc]
  rfl

theorem execNet_eq_netQuarterTurns (ods : Odrives) (seq : List String)
    (f : Char)
    (h : ∀ m ∈ seq, (lookupFace ods (firstChar m)).isSome) :
    execNet ods seq f = netQuarterTurns seq f := by
  induction seq with
  | nil => rfl
  | cons m rest ih =>
    have hm := h m (List.mem_cons_self m rest)
    have hr := fun x hx => h x (List.mem_cons_of_mem m hx)
    simp [execNet, netQuarterTurns, hm, ih hr]

theorem netQuarterTurns_zero_of_absent (seq : List String) (f : Char)
    (h : ∀ m ∈ seq, firstChar m ≠ f) :
    netQuarterTurns seq f = 0 := by
  induction seq with
  | nil => rfl
  | cons m rest ih =>
    simp [netQuarterTurns, h m (List.mem_cons_self m rest),
      ih (fun x hx => h x (List.mem_cons_of_mem m hx))]

/-- Every token of both sequences names one of the six faces. -/
theorem sequence_faces :
    ∀ m ∈ SCRAMBLE_SEQUENCE ++ UNSCRAMBLE_SEQUENCE,
      firstChar m ∈ (['D', 'U', 'L', 'B', 'F', 'R'] : List Char) := by
  decide

/-- Scramble followed by unscramble turns every face by a net zero number
of quarter turns. -/
theorem netQuarterTurns_roundtrip_zero (f : Char) :
    netQuarterTurns (SCRAMBLE_SEQUENCE ++ UNSCRAMBLE_SEQUENCE) f = 0 := by
  by_cases hD : f = 'D'
  · subst hD; decide
  by_cases hU : f = 'U'
  · subst hU; decide
  by_cases hL : f = 'L'
  · subst hL; decide
  by_cases hB : f = 'B'
  · subst hB; decide
  by_cases hF : f = 'F'
  · subst hF; decide
  by_cases hR : f = 'R'
  · subst hR; decide
  apply netQuarterTurns_zero_of_absent
  intro m hm he
  have h6 := sequence_faces m hm
  rw [he] at h6
  simp at h6
  tauto

/-- C2: `UNSCRAMBLE_SEQUENCE` is exactly `SCRAMBLE_SEQUENCE` in reverse
order with every move inverted (trailing apostrophe toggled), and - with
all six faces connected - executing the scramble then the unscramble
returns every face's handle, in particular its commanded input position, to
its initial value. -/
theorem unscrambleInvertsScramble (ods : Odrives)
    (hconn : ∀ c ∈ (['D', 'U', 'L', 'B', 'F', 'R'] : List Char),
      (lookupFace ods c).isSome) :
    UNSCRAMBLE_SEQUENCE = (SCRAMBLE_SEQUENCE.reverse).map specInvertMove
    ∧ ∀ f : Char,
        lookupFace
          (execute_sequence (execute_sequence ods SCRAMBLE_SEQUENCE).1
            UNSCRAMBLE_SEQUENCE).1 f = lookupFace ods f := by
  constructor
  · decide
  intro f
  have hexec :
      (execute_sequence (execute_sequence ods SCRAMBLE_SEQUENCE).1
        UNSCRAMBLE_SEQUENCE).1 =
      (execute_sequence ods (SCRAMBLE_SEQUENCE ++ UNSCRAMBLE_SEQUENCE)).1 := by
    rw [execute_sequence_append]
  have hall : ∀ m ∈ SCRAMBLE_SEQUENCE ++ UNSCRAMBLE_SEQUENCE,
      (lookupFace ods (firstChar m)).isSome :=
    fun m hm => hconn (firstChar m) (sequence_faces m hm)
  rw [hexec, execute_sequence_lookup,
    execNet_eq_netQuarterTurns _ _ _ hall, netQuarterTurns_roundtrip_zero]
  cases ho : lookupFace ods f with
  | none => rfl
  | some o =>
    cases o
    simp

/-- C2 witness: the round trip on the sample handles. -/
theorem unscrambleInvertsScramble_witness :
    UNSCRAMBLE_SEQUENCE = (SCRAMBLE_SEQUENCE.reverse).map specInvertMove
    ∧ ∀ f : Char,
        lookupFace
          (execute_sequence (execute_sequence sampleOdrives SCRAMBLE_SEQUENCE).1
            UNSCRAMBLE_SEQUENCE).1 f = lookupFace sampleOdrives f :=
  unscrambleInvertsScramble sampleOdrives (by decide)

/-- C4: setup applies the closed-loop request to the configured state, and
in that state the commanded input position has just been set equal to the
actuator's position estimate, so entering closed loop introduces no
position discontinuity. -/
theorem setupNoDiscontinuity (fw : Char → AxisState) (ods : Odrives)
    (f : Char) (o : ODrive) (hc : lookupFace ods f = some o) :
    lookupFace (setup_motors fw ods).1 f =
      some (requestClosedLoopStep fw f (configureMotor o))
    ∧ (configureMotor o).input_pos = (configureMotor o).pos_estimate := by
  constructor
  · show lookupFace (ods.map fun p => (p.1, setupMotor fw p.1 p.2)) f = _
    rw [lookupFace_map ods (fun c od => setupMotor fw c od) f, hc]
    rfl
  · rfl

/-- C4 witness: face D of the sample handles, compliant firmware. -/
theorem setupNoDiscontinuity_witness :
    lookupFace
        (setup_motors (fun _ => AxisState.CLOSED_LOOP_CONTROL) sampleOdrives).1
        'D' =
      some (requestClosedLoopStep (fun _ => AxisState.CLOSED_LOOP_CONTROL) 'D'
        (configureMotor sampleDrive))
    ∧ (configureMotor sampleDrive).input_pos =
        (configureMotor sampleDrive).pos_estimate :=
  setupNoDiscontinuity (fun _ => AxisState.CLOSED_LOOP_CONTROL) sampleOdrives
    'D' sampleDrive rfl

/-- The firmware oracle of the C5 counterexample: no axis leaves IDLE. -/
def stubbornFw : Char → AxisState := fun _ => AxisState.IDLE

/-- C5 counterexample: with a firmware that refuses the transition,
`setup_motors` completes with face D still in IDLE rather than closed-loop
control - the code only prints a warning and carries on. -/
theorem setupClosedLoop_counterexample :
    (lookupFace (setup_motors stubbornFw sampleOdrives).1 'D').map
        ODrive.current_state = some AxisState.IDLE
    ∧ AxisState.IDLE ≠ AxisState.CLOSED_LOOP_CONTROL := by
  exact ⟨rfl, by decide⟩

/-- C5 amended: after `setup_motors` every connected actuator is in
position-control mode with closed-loop control requested; its axis state is
whatever the firmware reports after the transition delay, and whenever that
is not closed loop a warning is printed while setup still completes. -/
theorem setupRequestsClosedLoop (fw : Char → AxisState) (ods : Odrives)
    (f : Char) (o : ODrive) (hc : lookupFace ods f = some o) :
    ((lookupFace (setup_motors fw ods).1 f).map ODrive.control_mode =
        some ControlMode.POSITION_CONTROL
      ∧ (lookupFace (setup_motors fw ods).1 f).map ODrive.requested_state =
          some AxisState.CLOSED_LOOP_CONTROL
      ∧ (lookupFace (setup_motors fw ods).1 f).map ODrive.current_state =
          some (fw f))
    ∧ (fw f ≠ AxisState.CLOSED_LOOP_CONTROL →
        Event.warnNotClosedLoop f (fw f) ∈ (setup_motors fw ods).2) := by
  have hl : lookupFace (setup_motors fw ods).1 f = some (setupMotor fw f o) := by
    show lookupFace (ods.map fun p => (p.1, setupMotor fw p.1 p.2)) f = _
    rw [lookupFace_map ods (fun c od => setupMotor fw c od) f, hc]
    rfl
  refine ⟨⟨by rw [hl]; rfl, by rw [hl]; rfl, by rw [hl]; rfl⟩, ?_⟩
  intro hne
  have hmem := lookupFace_mem ods f o hc
  show Event.warnNotClosedLoop f (fw f) ∈
    Event.settingUp ::
      (ods.map fun p => setupEvents fw p.1 p.2).flatten ++ [Event.allReady]
  apply List.mem_cons_of_mem
  apply List.mem_append_left
  rw [List.mem_flatten]
  refine ⟨setupEvents fw f o, List.mem_map_of_mem _ hmem, ?_⟩
  simp [setupEvents, hne]

/-- C5 amended witness: face D of the sample handles under the refusing
firmware. -/
theorem setupRequestsClosedLoop_witness :
    ((lookupFace (setup_motors stubbornFw sampleOdrives).1 'D').map
        ODrive.control_mode = some ControlMode.POSITION_CONTROL
      ∧ (lookupFace (setup_motors stubbornFw sampleOdrives).1 'D').map
          ODrive.requested_state = some AxisState.CLOSED_LOOP_CONTROL
      ∧ (lookupFace (setup_motors stubbornFw sampleOdrives).1 'D').map
          ODrive.current_state = some (stubbornFw 'D'))
    ∧ (stubbornFw 'D' ≠ AxisState.CLOSED_LOOP_CONTROL →
        Event.warnNotClosedLoop 'D' (stubbornFw 'D') ∈
          (setup_motors stubbornFw sampleOdrives).2) :=
  setupRequestsClosedLoop stubbornFw sampleOdrives 'D' sampleDrive rfl

theorem connectLoop_keys (find : String → Option ODrive)
    (l : List (Char × String)) (acc : Odrives)
    (h : ∀ p ∈ l, (find p.2).isSome) :
    ∃ ods, (connectLoop find l acc).1 = some ods
      ∧ ods.map Prod.fst = acc.map Prod.fst ++ l.map Prod.fst := by
  induction l generalizing acc with
  | nil => exact ⟨acc, rfl, by simp⟩
  | cons p rest ih =>
    obtain ⟨face, serial⟩ := p
    have hp := h (face, serial) (List.mem_cons_self _ _)
    obtain ⟨o, ho⟩ := Option.isSome_iff_exists.mp hp
    obtain ⟨ods, h1, h2⟩ :=
      ih (acc ++ [(face, o)]) (fun q hq => h q (List.mem_cons_of_mem _ hq))
    refine ⟨ods, by simp [connectLoop, ho, h1], ?_⟩
    rw [h2]
    simp

theorem connectLoop_fail (find : String → Option ODrive) :
    ∀ (l : List (Char × String)) (acc : Odrives),
      (∃ p ∈ l, find p.2 = none) → (connectLoop find l acc).1 = none := by
  intro l
  induction l with
  | nil =>
    intro acc h
    simp at h
  | cons q rest ih =>
    intro acc h
    obtain ⟨face, serial⟩ := q
    cases hf : find serial with
    | none => simp [connectLoop, hf]
    | some o =>
      obtain ⟨p, hp, hpn⟩ := h
      rcases List.mem_cons.mp hp with he | hm
      · rw [he] at hpn
        rw [hf] at hpn
        cases hpn
      · have hrest := ih (acc ++ [(face, o)]) ⟨p, hm, hpn⟩
        simp [connectLoop, hf, hrest]

theorem connectLoop_events (find : String → Option ODrive)
    (l : List (Char × String)) (acc : Odrives) :
    ∀ e ∈ (connectLoop find l acc).2,
      (∃ f s, e = Event.connected f s) ∨ (∃ f s, e = Event.connectFailed f s) := by
  induction l generalizing acc with
  | nil =>
    intro e he
    simp [connectLoop] at he
  | cons q rest ih =>
    obtain ⟨face, serial⟩ := q
    intro e he
    cases hf : find serial with
    | none =>
      simp [connectLoop, hf] at he
      exact Or.inr ⟨face, serial, he⟩
    | some o =>
      simp [connectLoop, hf] at he
      rcases he with he | he
      · exact Or.inl ⟨face, serial, he⟩
      · exact ih (acc ++ [(face, o)]) e he

/-- Whether an event is a motor-configuration write, a position command or
a command-loop prompt (the actions `main` skips when connecting failed). -/
def isMotorActionEv : Event → Bool
  | Event.setInputPos _ _ => true
  | Event.requestClosedLoop _ => true
  | Event.cmd _ _ => true
  | Event.prompt => true
  | _ => false

/-- C6: the connect phase is all-or-nothing.  When every `find_sync`
succeeds the returned dict binds exactly the six faces D, U, L, B, F, R;
when any single connection attempt fails the result is `None`, and `main`
then exits without configuring any motor, commanding any position, or
prompting for a command. -/
theorem connectAllOrNothing (find : String → Option ODrive) :
    ((∀ p ∈ SERIALS, (find p.2).isSome) →
      ∃ ods, (connect_odrives SERIALS find).1 = some ods
        ∧ ods.map Prod.fst = ['D', 'U', 'L', 'B', 'F', 'R'])
    ∧ ((∃ p ∈ SERIALS, find p.2 = none) →
      (connect_odrives SERIALS find).1 = none)
    ∧ ((connect_odrives SERIALS find).1 = none →
      ∀ fw stdin, ∀ e ∈ (main defaultTables find fw stdin).events,
        isMotorActionEv e = false) := by
  refine ⟨?_, ?_, ?_⟩
  · intro h
    obtain ⟨ods, h1, h2⟩ := connectLoop_keys find SERIALS [] h
    exact ⟨ods, by simpa [connect_odrives] using h1, by simpa using h2⟩
  · intro h
    simp [connect_odrives, connectLoop_fail find SERIALS [] h]
  · intro hnone fw stdin e he
    have hlc : (connectLoop find SERIALS []).1 = none := hnone
    have hm : (main defaultTables find fw stdin).events =
        (connect_odrives SERIALS find).2 ++ [Event.connectFailAbort] := by
      simp [main, defaultTables, hnone]
    rw [hm] at he
    have h2 : (connect_odrives SERIALS find).2 =
        Event.connecting :: ((connectLoop find SERIALS []).2 ++ []) := by
      simp [connect_odrives, hlc]
    rw [h2] at he
    rcases List.mem_append.mp he with h1 | h1
    · rcases List.mem_cons.mp h1 with h1 | h1
      · rw [h1]; rfl
      · rw [List.append_nil] at h1
        rcases connectLoop_events find SERIALS [] e h1 with ⟨f, s, hfs⟩ | ⟨f, s, hfs⟩
        · rw [hfs]; rfl
        · rw [hfs]; rfl
    · rcases List.mem_singleton.mp h1 with rfl
      rfl

theorem mainLoop_tables (t : Tables) (ods : Odrives) (stdin : List String) :
    (mainLoop t ods stdin).2.1 = t := by
  induction stdin generalizing ods with
  | nil => rfl
  | cons line rest ih =>
    by_cases hS : pyUpper line = "S"
    · simp [mainLoop, hS, ih]
    by_cases hU : pyUpper line = "U"
    · simp [mainLoop, hS, hU, ih]
    by_cases hQ : pyUpper line = "Q"
    · simp [mainLoop, hS, hU, hQ]
    · simp [mainLoop, hS, hU, hQ, ih]

/-- C8: the face-to-serial table and the two move lists are static: a whole
`main` run returns the global tables exactly as it received them (no
operation modifies them), and each command-loop dispatch is a lookup into
those fixed tables (the scramble and unscramble branches execute exactly
`t.scramble` and `t.unscramble`). -/
theorem staticTables (t : Tables) (find : String → Option ODrive)
    (fw : Char → AxisState) (stdin : List String) :
    (main t find fw stdin).tables = t
    ∧ (∀ ods line rest, pyUpper line = "S" →
        (mainLoop t ods (line :: rest)).1 =
          (mainLoop t (execute_sequence ods t.scramble).1 rest).1)
    ∧ (∀ ods line rest, pyUpper line = "U" →
        (mainLoop t ods (line :: rest)).1 =
          (mainLoop t (execute_sequence ods t.unscramble).1 rest).1) := by
  refine ⟨?_, ?_, ?_⟩
  · simp only [main]
    cases hc : (connect_odrives t.serials find).1 with
    | none => rfl
    | some ods =>
      by_cases he : ods.isEmpty
      · simp [he]
      · simp [he, mainLoop_tables]
  · intro ods line rest h
    simp [mainLoop, h]
  · intro ods line rest h
    have hne : ("U" : String) ≠ "S" := by decide
    simp [mainLoop, h, hne]

/-- C10 witness: the scramble sequence on the sample handles, face R. -/
theorem inputPosQuarterTurnInvariant_witness :
    ∃ k : Int,
      (lookupFace (execute_sequence sampleOdrives SCRAMBLE_SEQUENCE).1 'R').map
          ODrive.input_pos =
        some (sampleDrive.input_pos + k * (0.25 : Rat)) :=
  inputPosQuarterTurnInvariant sampleOdrives SCRAMBLE_SEQUENCE 'R' sampleDrive rfl

end Solver
